import Mathlib

/-!
Verification of the SiteSwift generation-pipeline controller
(`src/server/controllers/userController.ts`).

The file embeds the controller's behaviour shallowly:
* the output sanitizer (the two `String.replace` calls and `trim` applied
  to the raw model output) as functions on `List Char` / `String`;
* the persistent store (users, projects, conversation entries, versions)
  as a record of lists;
* `createUserProject` (synchronous phase plus the detached background
  task), `getUserProject` and `getUserCredits` as functions on that store,
  parametrised by the outcomes of the external AI calls and by which
  persistence writes throw.
-/

/-! ## Output sanitization (userController.ts lines 110-113)

The JS code is
`raw.replace(/BTBTBT[a-z]*\n?/gi, "").replace(/BTBTBT$/g, "").trim()`
(writing BT for a backtick).  The first replace scans left to right and
removes every occurrence of three backticks followed by a maximal run of
ASCII letters and an optional newline; the second removes one trailing
triple backtick; `trim` strips surrounding whitespace. -/

def isAsciiLetter (c : Char) : Bool :=
  ('a' ≤ c && c ≤ 'z') || ('A' ≤ c && c ≤ 'Z')

/-- Whitespace characters recognised by the JS `trim` (the common ones). -/
def isJsWs (c : Char) : Bool :=
  c = ' ' || c = '\t' || c = '\n' || c = '\r' ||
    c = Char.ofNat 11 || c = Char.ofNat 12

/-- Consume the `[a-z]*` part (with the `i` flag: ASCII letters) after an
opening fence. -/
def dropLetters : List Char → List Char
  | [] => []
  | c :: rest => if isAsciiLetter c then dropLetters rest else c :: rest

/-- Consume the optional `\n` after the letters of a fence match. -/
def dropNl : List Char → List Char
  | '\n' :: rest => rest
  | l => l

theorem dropLetters_length_le (l : List Char) : (dropLetters l).length ≤ l.length := by
  induction l with
  | nil => simp [dropLetters]
  | cons c rest ih =>
    simp only [dropLetters]
    split
    · exact Nat.le_succ_of_le ih
    · simp

theorem dropNl_length_le (l : List Char) : (dropNl l).length ≤ l.length := by
  unfold dropNl
  split
  · simp
  · simp

/-- Fuel-driven worker of the first replace; the fuel only serves to make
the recursion structural, and is always at least the list length. -/
def stripFencesAux : Nat → List Char → List Char
  | 0, _ => []
  | _, [] => []
  | fuel + 1, c :: rest =>
    if c = '`' ∧ rest.take 2 = ['`', '`'] then
      stripFencesAux fuel (dropNl (dropLetters (rest.drop 2)))
    else
      c :: stripFencesAux fuel rest

/-- The global replace of `/BTBTBT[a-z]*\n?/gi` by the empty string:
left-to-right scan, removing each match. -/
def stripFences (l : List Char) : List Char :=
  stripFencesAux l.length l

/-- The second replace, `/BTBTBT$/g`: remove one trailing triple backtick. -/
def stripTrailingFence (l : List Char) : List Char :=
  match l.reverse with
  | '`' :: '`' :: '`' :: rest => rest.reverse
  | _ => l

/-- `String.prototype.trim` on a character list. -/
def trimList (l : List Char) : List Char :=
  (((l.dropWhile isJsWs).reverse.dropWhile isJsWs)).reverse

/-- The whole sanitizer on a character list. -/
def cleanList (l : List Char) : List Char :=
  trimList (stripTrailingFence (stripFences l))

/-- The sanitizer on strings, as applied to the raw model output. -/
def cleanCode (s : String) : String :=
  (cleanList s.toList).asString

/-- `String.prototype.trim` on strings (used for the empty-prompt check and
the enhanced-prompt fallback). -/
def trimStr (s : String) : String :=
  (trimList s.toList).asString

/-! ### Properties of the sanitizer -/

theorem stripFencesAux_fuel_irrel :
    ∀ fuel (l : List Char), l.length ≤ fuel →
      stripFencesAux fuel l = stripFencesAux l.length l := by
  intro fuel
  induction fuel using Nat.strong_induction_on with
  | _ fuel ih =>
    intro l hl
    cases l with
    | nil => cases fuel <;> rfl
    | cons c rest =>
      simp only [List.length_cons] at hl
      cases fuel with
      | zero => omega
      | succ f =>
        have hlen : (dropNl (dropLetters (rest.drop 2))).length ≤ rest.length := by
          have h1 := dropNl_length_le (dropLetters (rest.drop 2))
          have h2 := dropLetters_length_le (rest.drop 2)
          have h3 : (rest.drop 2).length ≤ rest.length := by
            simp [List.length_drop]
          omega
        simp only [stripFencesAux]
        split
        · rw [ih f (by omega) _ (by omega),
            ih rest.length (by omega) _ hlen]
        · rw [ih f (by omega) rest (by omega),
            ih rest.length (by omega) rest (by omega)]

theorem stripFences_nil : stripFences [] = [] := rfl

theorem stripFences_cons (c : Char) (rest : List Char) :
    stripFences (c :: rest) =
      if c = '`' ∧ rest.take 2 = ['`', '`'] then
        stripFences (dropNl (dropLetters (rest.drop 2)))
      else c :: stripFences rest := by
  show stripFencesAux (rest.length + 1) (c :: rest) = _
  simp only [stripFencesAux]
  split
  · rw [stripFencesAux_fuel_irrel rest.length _ (by
      have h1 := dropNl_length_le (dropLetters (rest.drop 2))
      have h2 := dropLetters_length_le (rest.drop 2)
      have h3 : (rest.drop 2).length ≤ rest.length := by
        simp [List.length_drop]
      omega)]
    rfl
  · rfl

/-- If a list contains no triple-backtick fence, the first replace leaves
it unchanged. -/
theorem stripFences_eq_self :
    ∀ l : List Char, ¬ (['`', '`', '`'] <:+: l) → stripFences l = l := by
  intro l
  induction l with
  | nil => intro _; exact stripFences_nil
  | cons c rest ih =>
    intro h
    rw [stripFences_cons]
    split
    · rename_i hc
      exfalso
      apply h
      obtain ⟨hc1, hc2⟩ := hc
      have hsplit : rest = rest.take 2 ++ rest.drop 2 := (List.take_append_drop 2 rest).symm
      rw [hc2] at hsplit
      refine ⟨[], rest.drop 2, ?_⟩
      subst hc1
      conv_rhs => rw [hsplit]
      simp
    · rename_i hc
      have hrest : ¬ (['`', '`', '`'] <:+: rest) := fun hr => h (List.infix_cons hr)
      rw [ih hrest]

/-- A head-preservation fact for the first replace: if its output begins
with a backtick, so did its input. -/
theorem stripFences_take_one :
    ∀ l : List Char, (stripFences l).take 1 = ['`'] → l.take 1 = ['`'] := by
  intro l
  match l with
  | [] => rw [stripFences_nil]; intro h; exact absurd h (by simp)
  | c :: rest =>
    rw [stripFences_cons]
    split
    · rename_i hc
      intro _
      simp [hc.1]
    · intro h
      simp only [List.take_succ_cons, List.take_zero] at h ⊢
      have hc1 : c = '`' := by injection h
      rw [hc1]

/-- If the output of the first replace begins with two backticks, so did
its input. -/
theorem stripFences_take_two :
    ∀ l : List Char, (stripFences l).take 2 = ['`', '`'] → l.take 2 = ['`', '`'] := by
  intro l
  match l with
  | [] => rw [stripFences_nil]; intro h; exact absurd h (by simp)
  | c :: rest =>
    rw [stripFences_cons]
    split
    · rename_i hc
      intro _
      obtain ⟨hc1, hc2⟩ := hc
      have h1 : rest.take 1 = ['`'] := by
        have := congrArg (List.take 1) hc2
        simpa [List.take_take] using this
      simp [hc1, List.take_succ_cons, h1]
    · intro h
      simp only [List.take_succ_cons] at h ⊢
      have hc1 : c = '`' := by injection h
      have h1 : (stripFences rest).take 1 = ['`'] := by injection h
      have h2 := stripFences_take_one rest h1
      rw [hc1, h2]

/-- The first replace scans left to right and removes every fence match,
so its output never contains a triple backtick. -/
theorem stripFences_no_fence :
    ∀ l : List Char, ¬ (['`', '`', '`'] <:+: stripFences l) := by
  have main : ∀ n (l : List Char), l.length ≤ n →
      ¬ (['`', '`', '`'] <:+: stripFences l) := by
    intro n
    induction n using Nat.strong_induction_on with
    | _ n ih =>
      intro l hl
      cases l with
      | nil =>
        rw [stripFences_nil]
        intro h
        have := h.sublist.length_le
        simp at this
      | cons c rest =>
        simp only [List.length_cons] at hl
        rw [stripFences_cons]
        split
        · rename_i hc
          have hlen : (dropNl (dropLetters (rest.drop 2))).length ≤ rest.length := by
            have h1 := dropNl_length_le (dropLetters (rest.drop 2))
            have h2 := dropLetters_length_le (rest.drop 2)
            have h3 : (rest.drop 2).length ≤ rest.length := by
              simp [List.length_drop]
            omega
          exact ih rest.length (by omega) _ hlen
        · rename_i hc
          have hrest := ih rest.length (by omega) rest (by omega)
          intro h
          rcases List.infix_cons_iff.mp h with hpre | hinf
          · rcases List.cons_prefix_cons.mp hpre with ⟨hc1, htail⟩
            have htake : (stripFences rest).take 2 = ['`', '`'] := by
              rw [List.prefix_iff_eq_take] at htail
              exact htail.symm
            have := stripFences_take_two rest htake
            exact hc ⟨hc1.symm, this⟩
          · exact hrest hinf
  intro l
  exact main l.length l (Nat.le_refl _)

/-- The second replace returns a prefix of its input. -/
theorem stripTrailingFence_front (l : List Char) : stripTrailingFence l <+: l := by
  unfold stripTrailingFence
  split
  · rename_i rest heq
    have hl : l = rest.reverse ++ ['`', '`', '`'] := by
      have := congrArg List.reverse heq
      simpa using this
    exact ⟨['`', '`', '`'], hl.symm⟩
  · exact List.prefix_refl l

/-- On a fence-free list the second replace is the identity. -/
theorem stripTrailingFence_eq_self (l : List Char)
    (h : ¬ (['`', '`', '`'] <:+: l)) : stripTrailingFence l = l := by
  unfold stripTrailingFence
  split
  · rename_i rest heq
    exfalso
    apply h
    have hl : l = rest.reverse ++ ['`', '`', '`'] := by
      have := congrArg List.reverse heq
      simpa using this
    exact ⟨rest.reverse, [], by simp [hl]⟩
  · rfl

/-- Drop-while preserves nothing but a suffix, so the head of the result
(fails the predicate. -/
theorem dropWhile_head_not {α : Type} (p : α → Bool) :
    ∀ (l : List α) (c : α), (l.dropWhile p).head? = some c → p c = false := by
  intro l
  induction l with
  | nil => intro c h; simp [List.dropWhile] at h
  | cons a rest ih =>
    intro c h
    rw [List.dropWhile_cons] at h
    by_cases ha : p a
    · rw [if_pos ha] at h
      exact ih c h
    · rw [if_neg ha] at h
      simp at h
      rw [← h]
      exact Bool.of_not_eq_true ha

/-- A nonempty drop-while result keeps the last element of the input. -/
theorem dropWhile_getLast {α : Type} (p : α → Bool) :
    ∀ l : List α, l.dropWhile p ≠ [] → (l.dropWhile p).getLast? = l.getLast? := by
  intro l
  induction l with
  | nil => intro h; simp [List.dropWhile] at h
  | cons a rest ih =>
    intro h
    rw [List.dropWhile_cons]
    rw [List.dropWhile_cons] at h
    by_cases ha : p a
    · rw [if_pos ha] at h ⊢
      have hr : rest ≠ [] := by
        intro hnil
        rw [hnil] at h
        simp [List.dropWhile] at h
      rw [ih h, List.getLast?_cons]
      cases rest with
      | nil => exact absurd rfl hr
      | cons b r => simp [List.getLast?_cons]
    · rw [if_neg ha]

/-- The trim result has no leading and no trailing whitespace. -/
theorem trimList_trimmed (l : List Char) :
    (∀ c, (trimList l).head? = some c → isJsWs c = false) ∧
      (∀ c, (trimList l).getLast? = some c → isJsWs c = false) := by
  constructor
  · intro c hc
    unfold trimList at hc
    rw [List.head?_reverse] at hc
    have hne : (l.dropWhile isJsWs).reverse.dropWhile isJsWs ≠ [] := by
      intro hnil
      rw [hnil] at hc
      simp at hc
    rw [dropWhile_getLast isJsWs _ hne, List.getLast?_reverse] at hc
    exact dropWhile_head_not isJsWs l c hc
  · intro c hc
    unfold trimList at hc
    rw [List.getLast?_reverse] at hc
    exact dropWhile_head_not isJsWs _ c hc

/-- Trimming an already-trimmed list is the identity. -/
theorem trimList_eq_self (l : List Char)
    (h1 : ∀ c, l.head? = some c → isJsWs c = false)
    (h2 : ∀ c, l.getLast? = some c → isJsWs c = false) :
    trimList l = l := by
  have hdw : ∀ (m : List Char), (∀ c, m.head? = some c → isJsWs c = false) →
      m.dropWhile isJsWs = m := by
    intro m hm
    cases m with
    | nil => rfl
    | cons a rest =>
      rw [List.dropWhile_cons, if_neg]
      simp [hm a rfl]
  unfold trimList
  rw [hdw l h1, hdw l.reverse (by
    intro c hc
    rw [List.head?_reverse] at hc
    exact h2 c hc)]
  simp

/-- The trim result is an infix of its input. -/
theorem trimList_infix (l : List Char) : trimList l <:+: l := by
  have hA : l.dropWhile isJsWs <:+ l := List.dropWhile_suffix isJsWs
  have hB : (l.dropWhile isJsWs).reverse.dropWhile isJsWs <:+
      (l.dropWhile isJsWs).reverse := List.dropWhile_suffix isJsWs
  have hBp : trimList l <+: l.dropWhile isJsWs := by
    unfold trimList
    rw [← List.reverse_reverse ((l.dropWhile isJsWs).reverse.dropWhile isJsWs)] at hB
    exact List.reverse_suffix.mp hB
  exact hBp.isInfix.trans hA.isInfix

/-- The sanitizer's output never contains a triple-backtick fence. -/
theorem cleanList_no_fence (l : List Char) : ¬ (['`', '`', '`'] <:+: cleanList l) := by
  intro h
  apply stripFences_no_fence l
  have h1 : cleanList l <:+: stripTrailingFence (stripFences l) := trimList_infix _
  have h2 : stripTrailingFence (stripFences l) <:+: stripFences l :=
    (stripTrailingFence_front _).isInfix
  exact h.trans (h1.trans h2)

/-- Applying the sanitizer twice yields the same result as applying it
once. -/
theorem cleanList_idem (l : List Char) : cleanList (cleanList l) = cleanList l := by
  have hnf := cleanList_no_fence l
  have htr := trimList_trimmed (stripTrailingFence (stripFences l))
  conv_lhs => rw [cleanList]
  rw [stripFences_eq_self _ hnf, stripTrailingFence_eq_self _ hnf]
  exact trimList_eq_self _ htr.1 htr.2

/-- On already-clean markup (no fence, no surrounding whitespace) the
sanitizer is the identity. -/
theorem cleanList_eq_self (l : List Char)
    (hnf : ¬ (['`', '`', '`'] <:+: l))
    (h1 : ∀ c, l.head? = some c → isJsWs c = false)
    (h2 : ∀ c, l.getLast? = some c → isJsWs c = false) :
    cleanList l = l := by
  rw [cleanList, stripFences_eq_self _ hnf, stripTrailingFence_eq_self _ hnf]
  exact trimList_eq_self _ h1 h2

/-- String-level idempotence of the sanitizer. -/
theorem cleanCode_idem (s : String) : cleanCode (cleanCode s) = cleanCode s := by
  unfold cleanCode
  rw [List.toList_asString, cleanList_idem]

/-- String-level no-op on clean markup. -/
theorem cleanCode_eq_self (s : String)
    (hnf : ¬ (['`', '`', '`'] <:+: s.toList))
    (h1 : ∀ c, s.toList.head? = some c → isJsWs c = false)
    (h2 : ∀ c, s.toList.getLast? = some c → isJsWs c = false) :
    cleanCode s = s := by
  rw [cleanCode, cleanList_eq_self s.toList hnf h1 h2, String.asString_toList]

/-! ## Data model (logical layout of the Prisma store)

Users(id, credits, totalCreation), Projects(id, userId, name,
initial_prompt, current_code, current_version_index, isPublished),
ConversationEntries(projectId, role, content) kept in creation
(timestamp) order, Versions(id, projectId, code, description) kept in
creation order.  `nextId` is the id allocator.  `debitWrites` and
`refundWrites` count the successful credit-decrement and
credit-increment writes issued by the generation pipeline, so that the
saga obligations can be stated. -/

structure UserRec where
  credits : Int
  totalCreation : Nat
deriving Repr, DecidableEq

structure ConvEntry where
  role : String
  content : String
  projectId : Nat
deriving Repr, DecidableEq

structure VersionRec where
  id : Nat
  code : String
  description : String
  projectId : Nat
deriving Repr, DecidableEq

structure ProjectRec where
  id : Nat
  userId : String
  name : String
  initial_prompt : String
  current_code : Option String
  current_version_index : Option Nat
  isPublished : Bool
deriving Repr, DecidableEq

structure Store where
  users : List (String × UserRec)
  projects : List ProjectRec
  conversations : List ConvEntry
  versions : List VersionRec
  nextId : Nat
  debitWrites : Nat
  refundWrites : Nat
deriving Repr, DecidableEq

/-- `prisma.user.findUnique({ where: { id } })`. -/
def findUser (s : Store) (uid : String) : Option UserRec :=
  (s.users.find? (fun q => q.1 == uid)).map (fun q => q.2)

/-- `prisma.user.update({ where: { id: uid }, data })`. -/
def updateUser (l : List (String × UserRec)) (uid : String)
    (f : UserRec → UserRec) : List (String × UserRec) :=
  l.map (fun q => if q.1 == uid then (q.1, f q.2) else q)

/-- `prisma.conversation.create({ data: { role, content, projectId } })`. -/
def appendConv (s : Store) (pid : Nat) (role content : String) : Store :=
  { s with conversations := s.conversations ++ [⟨role, content, pid⟩] }

/-- Observable: a user's credit balance as read through the API
(`user?.credits ?? 0`). -/
def creditsOf (s : Store) (uid : String) : Int :=
  ((findUser s uid).map (fun u => u.credits)).getD 0

/-- Observable: the versions persisted for a project, in creation order. -/
def versionsFor (s : Store) (pid : Nat) : List VersionRec :=
  s.versions.filter (fun v => v.projectId == pid)

/-- Observable: the conversation entries of a project, in creation order. -/
def convFor (s : Store) (pid : Nat) : List ConvEntry :=
  s.conversations.filter (fun e => e.projectId == pid)

/-- Observable: lookup of a project row by id alone. -/
def projectById (s : Store) (pid : Nat) : Option ProjectRec :=
  s.projects.find? (fun pr => pr.id == pid)

/-! ## The generation pipeline (`createUserProject`)

The two AI round trips are external: each either throws or returns a
message whose `content` may be missing.  Every background persistence
write may also throw; a thrown write performs nothing and control moves
to the surrounding `catch`, which logs and issues a best-effort refund
(`.catch(() => \x7b\x7d)` on the refund write swallows a refund failure). -/

inductive AIResult where
  | failure
  | ok (content : Option String)
deriving Repr, DecidableEq

/-- Which external call returns what, and which background persistence
writes throw, for one generation attempt. -/
structure BgEnv where
  enhanceRes : AIResult
  codeGenRes : AIResult
  failConvEnhanced : Bool
  failConvGenerating : Bool
  failConvFailure : Bool
  failRefundEmpty : Bool
  failVersionCreate : Bool
  failProjectUpdate : Bool
  failConvSuccess : Bool
  failRefundCatch : Bool
deriving Repr, DecidableEq

/-- All background persistence writes succeed (the AI calls may still
fail or return anything). -/
def BgEnv.noWriteFaults (e : BgEnv) : Prop :=
  e.failConvEnhanced = false ∧ e.failConvGenerating = false ∧
    e.failConvFailure = false ∧ e.failRefundEmpty = false ∧
    e.failVersionCreate = false ∧ e.failProjectUpdate = false ∧
    e.failConvSuccess = false ∧ e.failRefundCatch = false

instance (e : BgEnv) : Decidable e.noWriteFaults := by
  unfold BgEnv.noWriteFaults
  infer_instance

/-- Line 87: `promptEnhanceResponse.choices[0].message.content?.trim() ||
initial_prompt`. -/
def enhancedPromptOf (content : Option String) (initial_prompt : String) : String :=
  match content with
  | none => initial_prompt
  | some c => if trimStr c = "" then initial_prompt else trimStr c

/-- The `catch` block (lines 142-150): log, then best-effort refund with
`.catch(() => \x7b\x7d)`. -/
def refundInCatch (env : BgEnv) (uid : String) (s : Store) : Store :=
  if env.failRefundCatch then s
  else
    { s with
      users := (updateUser s.users uid (fun u => { u with credits := u.credits + 5 })),
      refundWrites := s.refundWrites + 1 }

/-- Steps 2-3 of the background task (lines 97-141): the code-generation
call, sanitization, and the empty/success continuation, run over the
store `s2` as it stands after the two notice entries. -/
def handleCodeGen (env : BgEnv) (uid : String) (pid : Nat) (s2 : Store) : Store :=
  match env.codeGenRes with
  | .failure => refundInCatch env uid s2
  | .ok content2 =>
    let raw := content2.getD ""
    let cleaned := cleanCode raw
    if cleaned = "" then
      if env.failConvFailure then refundInCatch env uid s2
      else
        let s3 := appendConv s2 pid "assistant"
          "Unable to create the code. Please try again."
        if env.failRefundEmpty then refundInCatch env uid s3
        else
          { s3 with
            users := (updateUser s3.users uid
              (fun u => { u with credits := u.credits + 5 })),
            refundWrites := s3.refundWrites + 1 }
    else
      if env.failVersionCreate then refundInCatch env uid s2
      else
        let vid := s2.nextId
        let s3 := { s2 with
          versions := s2.versions ++ [⟨vid, cleaned, "Initial Version", pid⟩],
          nextId := s2.nextId + 1 }
        if env.failProjectUpdate then refundInCatch env uid s3
        else
          let s4 := { s3 with projects := s3.projects.map (fun pr =>
            if pr.id = pid then
              { pr with current_code := some cleaned,
                        current_version_index := some vid }
            else pr) }
          if env.failConvSuccess then refundInCatch env uid s4
          else appendConv s4 pid "assistant"
            "I've created your website! You can now preview it and request changes."

/-- The detached background task (lines 72-151). -/
def runBackground (env : BgEnv) (uid : String) (pid : Nat)
    (initial_prompt : String) (s : Store) : Store :=
  match env.enhanceRes with
  | .failure => refundInCatch env uid s
  | .ok content =>
    let enhancedPrompt := enhancedPromptOf content initial_prompt
    if env.failConvEnhanced then refundInCatch env uid s
    else
      let s1 := appendConv s pid "assistant"
        ("I've enhanced your prompt to: \"" ++ enhancedPrompt ++ "\"")
      if env.failConvGenerating then refundInCatch env uid s1
      else
        handleCodeGen env uid pid
          (appendConv s1 pid "assistant" "now generating your website...")

/-- The caller-visible result of the synchronous phase. -/
inductive CreateResult where
  | unauthorized
  | badRequest
  | userNotFound
  | insufficientCredits
  | ok (projectId : Nat)
deriving Repr, DecidableEq

/-- Line 46: name derivation (truncate to 47 chars plus an ellipsis when
longer than 50). -/
def deriveName (p : String) : String :=
  if p.length > 50 then p.take 47 ++ "..." else p

/-- The commit point (lines 44-66): create the project shell, increment
`totalCreation`, append the initial user conversation entry, debit 5
credits.  The new project's id is `s.nextId`. -/
def commitPoint (s : Store) (uid initial_prompt : String) : Store :=
  let pid := s.nextId
  let s1 := { s with
    projects := s.projects ++
      [({ id := pid, userId := uid, name := deriveName initial_prompt,
          initial_prompt := initial_prompt, current_code := none,
          current_version_index := none, isPublished := false } : ProjectRec)],
    nextId := s.nextId + 1 }
  let s2 := { s1 with users := (updateUser s1.users uid
    (fun u => { u with totalCreation := u.totalCreation + 1 })) }
  let s3 := appendConv s2 pid "user" initial_prompt
  { s3 with
    users := (updateUser s3.users uid
      (fun u => { u with credits := u.credits - 5 })),
    debitWrites := s3.debitWrites + 1 }

/-- The whole controller (lines 27-158): synchronous validation, the four
commit-point writes, then the detached background task.  The returned
store is the durable state after the background task has terminated. -/
def createUserProject (auth : Option String) (body : Option String)
    (env : BgEnv) (s : Store) : Store × CreateResult :=
  match auth with
  | none => (s, .unauthorized)
  | some uid =>
    match body with
    | none => (s, .badRequest)
    | some initial_prompt =>
      if trimStr initial_prompt = "" then (s, .badRequest)
      else
        match findUser s uid with
        | none => (s, .userNotFound)
        | some user =>
          if user.credits < 5 then (s, .insufficientCredits)
          else
            (runBackground env uid s.nextId initial_prompt
              (commitPoint s uid initial_prompt), .ok s.nextId)

/-! ## Read endpoints -/

/-- What `getUserProject` serialises for an owned project: the row with
its conversation and versions in ascending timestamp order. -/
structure ProjectView where
  project : ProjectRec
  conversation : List ConvEntry
  versions : List VersionRec
deriving Repr, DecidableEq

inductive GetProjectResult where
  | unauthorized
  | ok (project : Option ProjectView)
deriving Repr, DecidableEq

/-- `getUserProject` (lines 162-184): `findUnique({ where: { id, userId } })`
and `res.json({ project })` — a missing or foreign project serialises as
`project: null` with the same 200 status. -/
def getUserProject (auth : Option String) (projectId : Nat) (s : Store) :
    GetProjectResult :=
  match auth with
  | none => .unauthorized
  | some uid =>
    match s.projects.find? (fun pr => pr.id == projectId && pr.userId == uid) with
    | none => .ok none
    | some pr => .ok (some ⟨pr,
        s.conversations.filter (fun e => e.projectId == projectId),
        s.versions.filter (fun v => v.projectId == projectId)⟩)

inductive CreditsResult where
  | unauthorized
  | ok (credits : Int)
deriving Repr, DecidableEq

/-- `getUserCredits` (lines 7-24): `user?.credits ?? 0`. -/
def getUserCredits (auth : Option String) (s : Store) : CreditsResult :=
  match auth with
  | none => .unauthorized
  | some uid => .ok (((findUser s uid).map (fun u => u.credits)).getD 0)

/-- Well-formedness of the store: every persisted row's ids were allocated
below `nextId`, and project ids are unique. -/
def StoreWF (s : Store) : Prop :=
  (∀ pr ∈ s.projects, pr.id < s.nextId) ∧
    (∀ v ∈ s.versions, v.projectId < s.nextId ∧ v.id < s.nextId) ∧
    (∀ e ∈ s.conversations, e.projectId < s.nextId) ∧
    s.projects.Pairwise (fun a b => a.id ≠ b.id)

instance (s : Store) : Decidable (StoreWF s) := by
  unfold StoreWF
  infer_instance

/-! ## Supporting lemmas about the store operations -/

theorem lookup_updateUser_self (l : List (String × UserRec)) (uid : String)
    (f : UserRec → UserRec) :
    ((updateUser l uid f).find? (fun q => q.1 == uid)).map (fun q => q.2) =
      (((l.find? (fun q => q.1 == uid)).map (fun q => q.2)).map f) := by
  induction l with
  | nil => simp [updateUser]
  | cons q rest ih =>
    by_cases h : q.1 = uid
    · have hq : (q.1 == uid) = true := by simpa using h
      simp only [updateUser, List.map_cons, hq, if_true]
      rw [List.find?_cons_of_pos _ (by simpa using h),
        List.find?_cons_of_pos _ (by exact hq)]
      simp
    · have hq : (q.1 == uid) = false := by simpa using h
      simp only [updateUser, List.map_cons, hq, Bool.false_eq_true, if_false]
      rw [List.find?_cons_of_neg _ (by simp [hq]),
        List.find?_cons_of_neg _ (by simp [hq])]
      exact ih

theorem findUser_updateUser (s : Store) (uid : String) (f : UserRec → UserRec)
    (rest : List (String × UserRec)) (h : rest = updateUser s.users uid f) :
    ((rest.find? (fun q => q.1 == uid)).map (fun q => q.2)) =
      (findUser s uid).map f := by
  rw [h]
  exact lookup_updateUser_self s.users uid f

theorem commitPoint_versions (s : Store) (uid p : String) :
    (commitPoint s uid p).versions = s.versions := rfl

theorem commitPoint_nextId (s : Store) (uid p : String) :
    (commitPoint s uid p).nextId = s.nextId + 1 := rfl

theorem commitPoint_refundWrites (s : Store) (uid p : String) :
    (commitPoint s uid p).refundWrites = s.refundWrites := rfl

theorem commitPoint_debitWrites (s : Store) (uid p : String) :
    (commitPoint s uid p).debitWrites = s.debitWrites + 1 := rfl

theorem commitPoint_conversations (s : Store) (uid p : String) :
    (commitPoint s uid p).conversations =
      s.conversations ++ [⟨"user", p, s.nextId⟩] := rfl

theorem commitPoint_projects (s : Store) (uid p : String) :
    (commitPoint s uid p).projects =
      s.projects ++
        [({ id := s.nextId, userId := uid, name := deriveName p,
            initial_prompt := p, current_code := none,
            current_version_index := none, isPublished := false } : ProjectRec)] := rfl

theorem findUser_commitPoint (s : Store) (uid p : String) :
    findUser (commitPoint s uid p) uid =
      (findUser s uid).map
        (fun u => { u with totalCreation := u.totalCreation + 1,
                           credits := u.credits - 5 }) := by
  show ((updateUser (updateUser s.users uid
      (fun u => { u with totalCreation := u.totalCreation + 1 })) uid
      (fun u => { u with credits := u.credits - 5 })).find?
        (fun q => q.1 == uid)).map (fun q => q.2) = _
  rw [lookup_updateUser_self, lookup_updateUser_self]
  rw [Option.map_map, Option.map_map]
  unfold findUser
  cases (s.users.find? (fun q => q.1 == uid)) <;> rfl

/-- If the synchronous guards pass, the controller runs the background
task over the commit-point store and answers the fresh project id. -/
theorem createUserProject_ok (uid p : String) (env : BgEnv) (s : Store)
    (u : UserRec) (h_user : findUser s uid = some u)
    (h_cred : ¬ u.credits < 5) (h_prompt : trimStr p ≠ "") :
    createUserProject (some uid) (some p) env s =
      (runBackground env uid s.nextId p (commitPoint s uid p), .ok s.nextId) := by
  simp only [createUserProject]
  rw [if_neg h_prompt, h_user]
  simp only []
  rw [if_neg h_cred]

/-- Over every possible environment (any AI outcomes, any write faults)
the background task never touches the debit counter and issues at most
one successful refund write. -/
theorem runBackground_writes (env : BgEnv) (uid : String) (pid : Nat)
    (p : String) (s : Store) :
    (runBackground env uid pid p s).debitWrites = s.debitWrites ∧
      s.refundWrites ≤ (runBackground env uid pid p s).refundWrites ∧
      (runBackground env uid pid p s).refundWrites ≤ s.refundWrites + 1 := by
  have hrc : ∀ t : Store, (refundInCatch env uid t).debitWrites = t.debitWrites ∧
      t.refundWrites ≤ (refundInCatch env uid t).refundWrites ∧
      (refundInCatch env uid t).refundWrites ≤ t.refundWrites + 1 := by
    intro t
    unfold refundInCatch
    split
    · exact ⟨rfl, Nat.le_refl _, Nat.le_succ _⟩
    · exact ⟨rfl, Nat.le_succ _, Nat.le_refl _⟩
  unfold runBackground handleCodeGen
  dsimp only
  repeat' split
  all_goals first
    | exact hrc _
    | exact ⟨rfl, Nat.le_succ _, Nat.le_refl _⟩
    | exact ⟨rfl, Nat.le_refl _, Nat.le_succ _⟩

/-! ## Concrete fixtures used by witnesses -/

def exUser : UserRec := { credits := 10, totalCreation := 0 }

def exStore : Store :=
  { users := [("u", exUser)], projects := [], conversations := [],
    versions := [], nextId := 0, debitWrites := 0, refundWrites := 0 }

def envAllOk : BgEnv :=
  { enhanceRes := .ok (some "an enhanced prompt"),
    codeGenRes := .ok (some "<p>hi</p>"),
    failConvEnhanced := false, failConvGenerating := false,
    failConvFailure := false, failRefundEmpty := false,
    failVersionCreate := false, failProjectUpdate := false,
    failConvSuccess := false, failRefundCatch := false }

/-! ## Claims -/

/-- C4: for a user with fewer than 5 credits and an otherwise valid
request, the controller answers `insufficientCredits` synchronously and
the store is completely unchanged — no project, no debit, no
conversation entry. -/
theorem c4_insufficient_credits_no_effect (uid p : String) (env : BgEnv)
    (s : Store) (u : UserRec) (h_user : findUser s uid = some u)
    (h_low : u.credits < 5) (h_prompt : trimStr p ≠ "") :
    createUserProject (some uid) (some p) env s = (s, .insufficientCredits) := by
  simp only [createUserProject]
  rw [if_neg h_prompt, h_user]
  simp only []
  rw [if_pos h_low]

/-- Witness for C4 at a concrete store: a user with 3 credits. -/
theorem c4_insufficient_credits_no_effect_witness :
    createUserProject (some "u") (some "make a site") envAllOk
        { exStore with users := [("u", { credits := 3, totalCreation := 0 })] } =
      ({ exStore with users := [("u", { credits := 3, totalCreation := 0 })] },
        .insufficientCredits) :=
  c4_insufficient_credits_no_effect "u" "make a site" envAllOk
    { exStore with users := [("u", { credits := 3, totalCreation := 0 })] }
    { credits := 3, totalCreation := 0 } (by decide) (by decide) (by decide)

/-- C10: a get-credits request by an authenticated caller whose user row
does not exist succeeds with a balance of 0 (`user?.credits ?? 0`). -/
theorem c10_missing_user_reads_zero (uid : String) (s : Store)
    (h : findUser s uid = none) :
    getUserCredits (some uid) s = .ok 0 := by
  simp only [getUserCredits]
  rw [h]
  rfl

/-- Witness for C10: a caller id absent from the store. -/
theorem c10_missing_user_reads_zero_witness :
    getUserCredits (some "ghost") exStore = .ok 0 :=
  c10_missing_user_reads_zero "ghost" exStore (by decide)

theorem projects_id_unique {l : List ProjectRec}
    (h : l.Pairwise (fun x y => x.id ≠ y.id)) :
    ∀ x ∈ l, ∀ y ∈ l, x.id = y.id → x = y := by
  induction l with
  | nil => intro x hx; cases hx
  | cons z rest ih =>
    rcases List.pairwise_cons.mp h with ⟨hz, hrest⟩
    intro x hx y hy hid
    rcases List.mem_cons.mp hx with hx | hx <;>
      rcases List.mem_cons.mp hy with hy | hy
    · rw [hx, hy]
    · exact absurd (hx ▸ hid) (hz y hy)
    · exact absurd (hy ▸ hid).symm (hz x hx)
    · exact ih hrest x hx y hy hid

/-- C9: a `getUserProject` request by user `b` for a project owned by a
different user `a` yields exactly the same observable outcome as a
request for a project id that does not exist at all — `project: null`. -/
theorem c9_ownership_isolation (s : Store) (a b : String) (pr : ProjectRec)
    (hWF : StoreWF s) (hmem : pr ∈ s.projects) (howner : pr.userId = a)
    (hab : b ≠ a) (freshId : Nat) (hfresh : ∀ q ∈ s.projects, q.id ≠ freshId) :
    getUserProject (some b) pr.id s = getUserProject (some b) freshId s ∧
      getUserProject (some b) pr.id s = .ok none := by
  have huniq := projects_id_unique hWF.2.2.2
  have h1 : s.projects.find? (fun q => q.id == pr.id && q.userId == b) = none := by
    rw [List.find?_eq_none]
    intro q hq hcontra
    simp only [Bool.and_eq_true, beq_iff_eq] at hcontra
    have : q = pr := huniq q hq pr hmem hcontra.1
    rw [this, howner] at hcontra
    exact hab hcontra.2.symm
  have h2 : s.projects.find? (fun q => q.id == freshId && q.userId == b) = none := by
    rw [List.find?_eq_none]
    intro q hq hcontra
    simp only [Bool.and_eq_true, beq_iff_eq] at hcontra
    exact hfresh q hq hcontra.1
  simp only [getUserProject]
  rw [h1, h2]
  exact ⟨rfl, rfl⟩

def exProject : ProjectRec :=
  { id := 0, userId := "u", name := "a site", initial_prompt := "a site",
    current_code := none, current_version_index := none, isPublished := false }

def exStoreWithProject : Store :=
  { exStore with projects := [exProject], nextId := 1 }

/-- Witness for C9: user `b` probing user `u`'s project 0 and the absent
project 99. -/
theorem c9_ownership_isolation_witness :
    (getUserProject (some "b") exProject.id exStoreWithProject =
        getUserProject (some "b") 99 exStoreWithProject) ∧
      getUserProject (some "b") exProject.id exStoreWithProject = .ok none :=
  c9_ownership_isolation exStoreWithProject "u" "b" exProject (by decide)
    (by decide) (by decide) (by decide) 99 (by decide)

/-! ## Path characterizations of the background task -/

theorem refundInCatch_ok (env : BgEnv) (uid : String) (s : Store)
    (h : env.failRefundCatch = false) :
    refundInCatch env uid s =
      { s with
        users := (updateUser s.users uid
          (fun u => { u with credits := u.credits + 5 })),
        refundWrites := s.refundWrites + 1 } := by
  unfold refundInCatch
  simp [h]

theorem refundInCatch_swallowed (env : BgEnv) (uid : String) (s : Store)
    (h : env.failRefundCatch = true) :
    refundInCatch env uid s = s := by
  unfold refundInCatch
  simp [h]

theorem runBackground_enhance_throw (env : BgEnv) (uid : String) (pid : Nat)
    (p : String) (s : Store) (h : env.enhanceRes = .failure) :
    runBackground env uid pid p s = refundInCatch env uid s := by
  unfold runBackground
  rw [h]

theorem runBackground_enhance_ok (env : BgEnv) (uid : String) (pid : Nat)
    (p : String) (s : Store) (content : Option String)
    (h1 : env.enhanceRes = .ok content) (h2 : env.failConvEnhanced = false)
    (h3 : env.failConvGenerating = false) :
    runBackground env uid pid p s =
      handleCodeGen env uid pid
        (appendConv (appendConv s pid "assistant"
            ("I've enhanced your prompt to: \"" ++ enhancedPromptOf content p ++ "\""))
          pid "assistant" "now generating your website...") := by
  unfold runBackground
  rw [h1]
  dsimp only
  simp [h2, h3]

theorem handleCodeGen_throw (env : BgEnv) (uid : String) (pid : Nat)
    (s2 : Store) (h : env.codeGenRes = .failure) :
    handleCodeGen env uid pid s2 = refundInCatch env uid s2 := by
  unfold handleCodeGen
  rw [h]

theorem handleCodeGen_empty (env : BgEnv) (uid : String) (pid : Nat)
    (s2 : Store) (content2 : Option String)
    (h1 : env.codeGenRes = .ok content2)
    (h2 : cleanCode (content2.getD "") = "")
    (h3 : env.failConvFailure = false) (h4 : env.failRefundEmpty = false) :
    handleCodeGen env uid pid s2 =
      { s2 with
        conversations := s2.conversations ++
          [⟨"assistant", "Unable to create the code. Please try again.", pid⟩],
        users := (updateUser s2.users uid
          (fun u => { u with credits := u.credits + 5 })),
        refundWrites := s2.refundWrites + 1 } := by
  unfold handleCodeGen
  rw [h1]
  dsimp only
  rw [if_pos h2]
  simp [h3, h4, appendConv]

theorem handleCodeGen_success (env : BgEnv) (uid : String) (pid : Nat)
    (s2 : Store) (content2 : Option String)
    (h1 : env.codeGenRes = .ok content2)
    (h2 : cleanCode (content2.getD "") ≠ "")
    (h3 : env.failVersionCreate = false) (h4 : env.failProjectUpdate = false)
    (h5 : env.failConvSuccess = false) :
    handleCodeGen env uid pid s2 =
      { s2 with
        versions := s2.versions ++
          [⟨s2.nextId, cleanCode (content2.getD ""), "Initial Version", pid⟩],
        nextId := s2.nextId + 1,
        projects := s2.projects.map (fun pr =>
          if pr.id = pid then
            { pr with current_code := some (cleanCode (content2.getD "")),
                      current_version_index := some s2.nextId }
          else pr),
        conversations := s2.conversations ++
          [⟨"assistant",
            "I've created your website! You can now preview it and request changes.",
            pid⟩] } := by
  unfold handleCodeGen
  rw [h1]
  dsimp only
  rw [if_neg h2]
  simp [h3, h4, h5, appendConv]

/-! ## Store observation lemmas -/

theorem convFor_appendConv_self (s : Store) (pid : Nat) (r c : String) :
    convFor (appendConv s pid r c) pid = convFor s pid ++ [⟨r, c, pid⟩] := by
  unfold convFor appendConv
  simp

theorem map_projUpdate_id {l : List ProjectRec} {pid : Nat}
    (f : ProjectRec → ProjectRec) (h : ∀ pr ∈ l, pr.id ≠ pid) :
    l.map (fun pr => if pr.id = pid then f pr else pr) = l := by
  induction l with
  | nil => rfl
  | cons q rest ih =>
    simp only [List.map_cons]
    rw [if_neg (h q (List.mem_cons_self q rest)),
      ih (fun pr hpr => h pr (List.mem_cons_of_mem q hpr))]

theorem find?_append_last {α : Type} (p : α → Bool) (l : List α) (x : α)
    (h : ∀ a ∈ l, ¬ p a) (hx : p x = true) :
    (l ++ [x]).find? p = some x := by
  induction l with
  | nil => simp [List.find?_cons_of_pos _ hx]
  | cons q rest ih =>
    rw [List.cons_append,
      List.find?_cons_of_neg _ (h q (List.mem_cons_self q rest))]
    exact ih (fun a ha => h a (List.mem_cons_of_mem q ha))

/-- From well-formedness: no pre-existing version row carries the fresh
project id. -/
theorem old_versions_filter_nil (s : Store) (hWF : StoreWF s) :
    s.versions.filter (fun v => v.projectId == s.nextId) = [] := by
  rw [List.filter_eq_nil_iff]
  intro a ha
  have := (hWF.2.1 a ha).1
  simp only [beq_iff_eq]
  omega

/-- From well-formedness: no pre-existing conversation row carries the
fresh project id. -/
theorem old_conversations_filter_nil (s : Store) (hWF : StoreWF s) :
    s.conversations.filter (fun e => e.projectId == s.nextId) = [] := by
  rw [List.filter_eq_nil_iff]
  intro a ha
  have := hWF.2.2.1 a ha
  simp only [beq_iff_eq]
  omega

/-- From well-formedness: no pre-existing project row carries the fresh
project id. -/
theorem old_projects_ne_nextId (s : Store) (hWF : StoreWF s) :
    ∀ pr ∈ s.projects, pr.id ≠ s.nextId := by
  intro pr hpr
  have := hWF.1 pr hpr
  omega

/-- `creditsOf` depends only on the users table. -/
theorem creditsOf_eq_of_users (t t2 : Store) (h : t.users = t2.users)
    (uid : String) : creditsOf t uid = creditsOf t2 uid := by
  unfold creditsOf findUser
  rw [h]

/-- C2: a generation whose code-generation stage returns output that is
non-empty after sanitization, with no background write faults, debits
exactly 5 credits net, persists exactly one Version for the new project,
and repoints the project's `current_code`/`current_version_index` at that
Version. -/
theorem c2_success_debits_and_persists (uid p : String) (env : BgEnv)
    (s s' : Store) (r : CreateResult) (u : UserRec)
    (content content2 : Option String)
    (h_run : createUserProject (some uid) (some p) env s = (s', r))
    (h_user : findUser s uid = some u) (h_cred : ¬ u.credits < 5)
    (h_prompt : trimStr p ≠ "") (hWF : StoreWF s)
    (h_faults : env.noWriteFaults)
    (h_enh : env.enhanceRes = .ok content)
    (h_gen : env.codeGenRes = .ok content2)
    (h_clean : cleanCode (content2.getD "") ≠ "") :
    r = .ok s.nextId ∧
      creditsOf s' uid = creditsOf s uid - 5 ∧
      versionsFor s' s.nextId =
        [⟨s.nextId + 1, cleanCode (content2.getD ""), "Initial Version", s.nextId⟩] ∧
      projectById s' s.nextId = some
        { id := s.nextId, userId := uid, name := deriveName p,
          initial_prompt := p,
          current_code := some (cleanCode (content2.getD "")),
          current_version_index := some (s.nextId + 1),
          isPublished := false } := by
  obtain ⟨f1, f2, f3, f4, f5, f6, f7, f8⟩ := h_faults
  rw [createUserProject_ok uid p env s u h_user h_cred h_prompt] at h_run
  have hs' : s' = runBackground env uid s.nextId p (commitPoint s uid p) :=
    (congrArg Prod.fst h_run).symm
  have hr : r = .ok s.nextId := (congrArg Prod.snd h_run).symm
  subst hs'
  refine ⟨hr, ?_, ?_, ?_⟩
  all_goals
    rw [runBackground_enhance_ok env uid s.nextId p _ content h_enh f1 f2,
      handleCodeGen_success env uid s.nextId _ content2 h_gen h_clean f5 f6 f7]
  · show creditsOf (commitPoint s uid p) uid = creditsOf s uid - 5
    have hcp : creditsOf (commitPoint s uid p) uid = u.credits - 5 := by
      unfold creditsOf
      rw [findUser_commitPoint, h_user]
      rfl
    have hsu : creditsOf s uid = u.credits := by
      unfold creditsOf
      rw [h_user]
      rfl
    rw [hcp, hsu]
  · dsimp only [versionsFor, appendConv, commitPoint]
    rw [List.filter_append, old_versions_filter_nil s hWF]
    simp
  · dsimp only [projectById, appendConv, commitPoint]
    rw [List.map_append, map_projUpdate_id _ (old_projects_ne_nextId s hWF),
      List.map_cons, List.map_nil, if_pos rfl]
    rw [find?_append_last _ _ _ (fun a ha => by
        simp only [beq_iff_eq]
        exact old_projects_ne_nextId s hWF a ha) (by simp)]

/-- Balance read after a `+5` refund applied on top of the commit point:
back to the pre-request value. -/
theorem creditsOf_after_refund_of_commit (s : Store) (uid p : String)
    (X : Store)
    (hX : X.users = updateUser (commitPoint s uid p).users uid
      (fun v => { v with credits := v.credits + 5 }))
    (u : UserRec) (h_user : findUser s uid = some u) :
    creditsOf X uid = u.credits := by
  unfold creditsOf findUser
  unfold findUser at h_user
  rw [hX, lookup_updateUser_self]
  have hcp := findUser_commitPoint s uid p
  unfold findUser at hcp
  rw [hcp, h_user]
  simp

/-- C3: a generation whose code-generation stage returns output that is
empty after sanitization, with no background write faults, nets a zero
balance change (debit 5 then refund 5), persists no Version, and leaves
the Project and all four conversation entries — including the assistant
failure entry — in place. -/
theorem c3_empty_output_compensated (uid p : String) (env : BgEnv)
    (s s' : Store) (r : CreateResult) (u : UserRec)
    (content content2 : Option String)
    (h_run : createUserProject (some uid) (some p) env s = (s', r))
    (h_user : findUser s uid = some u) (h_cred : ¬ u.credits < 5)
    (h_prompt : trimStr p ≠ "") (hWF : StoreWF s)
    (h_faults : env.noWriteFaults)
    (h_enh : env.enhanceRes = .ok content)
    (h_gen : env.codeGenRes = .ok content2)
    (h_clean : cleanCode (content2.getD "") = "") :
    r = .ok s.nextId ∧
      creditsOf s' uid = creditsOf s uid ∧
      versionsFor s' s.nextId = [] ∧
      projectById s' s.nextId = some
        { id := s.nextId, userId := uid, name := deriveName p,
          initial_prompt := p, current_code := none,
          current_version_index := none, isPublished := false } ∧
      convFor s' s.nextId =
        [⟨"user", p, s.nextId⟩,
         ⟨"assistant",
           "I've enhanced your prompt to: \"" ++ enhancedPromptOf content p ++ "\"",
           s.nextId⟩,
         ⟨"assistant", "now generating your website...", s.nextId⟩,
         ⟨"assistant", "Unable to create the code. Please try again.", s.nextId⟩] := by
  obtain ⟨f1, f2, f3, f4, f5, f6, f7, f8⟩ := h_faults
  rw [createUserProject_ok uid p env s u h_user h_cred h_prompt] at h_run
  have hs' : s' = runBackground env uid s.nextId p (commitPoint s uid p) :=
    (congrArg Prod.fst h_run).symm
  have hr : r = .ok s.nextId := (congrArg Prod.snd h_run).symm
  subst hs'
  refine ⟨hr, ?_, ?_, ?_, ?_⟩
  all_goals
    rw [runBackground_enhance_ok env uid s.nextId p _ content h_enh f1 f2,
      handleCodeGen_empty env uid s.nextId _ content2 h_gen h_clean f3 f4]
  · have hsu : creditsOf s uid = u.credits := by
      unfold creditsOf
      rw [h_user]
      rfl
    rw [hsu]
    exact creditsOf_after_refund_of_commit s uid p _ rfl u h_user
  · dsimp only [versionsFor, appendConv, commitPoint]
    exact old_versions_filter_nil s hWF
  · dsimp only [projectById, appendConv, commitPoint]
    rw [find?_append_last _ _ _ (fun a ha => by
        simp only [beq_iff_eq]
        exact old_projects_ne_nextId s hWF a ha) (by simp)]
  · dsimp only [convFor, appendConv, commitPoint]
    simp [List.filter_append, old_conversations_filter_nil s hWF]

/-- Fixture: an environment whose code generation yields no content, so
the sanitized output is empty. -/
def envEmptyOut : BgEnv := { envAllOk with codeGenRes := .ok none }

/-- Counterexample to C5 as stated: a concrete empty-output failure run
(no write faults) leaves 4 conversation entries, not 3 or 2, because the
"now generating your website..." start notice is written before code
generation on every path that reaches it. -/
theorem c5_counterexample_empty_output_four_entries :
    ((createUserProject (some "u") (some "make a site") envEmptyOut exStore).1).refundWrites = 1 ∧
      versionsFor (createUserProject (some "u") (some "make a site") envEmptyOut exStore).1 0 = [] ∧
      (convFor (createUserProject (some "u") (some "make a site") envEmptyOut exStore).1 0).length = 4 := by
  refine ⟨rfl, rfl, rfl⟩

/-- C5 (amended): with no background write faults, every completed
generation whose two AI calls return (success or empty output alike)
leaves exactly 4 conversation entries: initial user prompt,
enhanced-prompt notice, start notice, then a success or failure
notice. -/
theorem c5_amended_four_entries (uid p : String) (env : BgEnv)
    (s s' : Store) (r : CreateResult) (u : UserRec)
    (content content2 : Option String)
    (h_run : createUserProject (some uid) (some p) env s = (s', r))
    (h_user : findUser s uid = some u) (h_cred : ¬ u.credits < 5)
    (h_prompt : trimStr p ≠ "") (hWF : StoreWF s)
    (h_faults : env.noWriteFaults)
    (h_enh : env.enhanceRes = .ok content)
    (h_gen : env.codeGenRes = .ok content2) :
    (convFor s' s.nextId).length = 4 := by
  obtain ⟨f1, f2, f3, f4, f5, f6, f7, f8⟩ := h_faults
  rw [createUserProject_ok uid p env s u h_user h_cred h_prompt] at h_run
  have hs' : s' = runBackground env uid s.nextId p (commitPoint s uid p) :=
    (congrArg Prod.fst h_run).symm
  subst hs'
  rw [runBackground_enhance_ok env uid s.nextId p _ content h_enh f1 f2]
  by_cases hcl : cleanCode (content2.getD "") = ""
  · rw [handleCodeGen_empty env uid s.nextId _ content2 h_gen hcl f3 f4]
    dsimp only [convFor, appendConv, commitPoint]
    simp [List.filter_append, old_conversations_filter_nil s hWF]
  · rw [handleCodeGen_success env uid s.nextId _ content2 h_gen hcl f5 f6 f7]
    dsimp only [convFor, appendConv, commitPoint]
    simp [List.filter_append, old_conversations_filter_nil s hWF]

/-- Fixture: code generation throws and the compensating refund write in
the catch block also fails (it is swallowed by `.catch`). -/
def envRefundFail : BgEnv :=
  { envAllOk with codeGenRes := AIResult.failure, failRefundCatch := true }

/-- Counterexample to C1 as stated: with the debit committed (result
`ok`, one debit write), a code-generation error whose compensating refund
write itself fails leaves NEITHER a persisted Version NOR a refund. -/
theorem c1_counterexample_neither_outcome :
    (createUserProject (some "u") (some "make a site") envRefundFail exStore).2 =
        .ok 0 ∧
      ((createUserProject (some "u") (some "make a site") envRefundFail
            exStore).1).debitWrites = 1 ∧
      versionsFor
          (createUserProject (some "u") (some "make a site") envRefundFail
            exStore).1 0 = [] ∧
      ((createUserProject (some "u") (some "make a site") envRefundFail
            exStore).1).refundWrites = 0 :=
  ⟨rfl, rfl, rfl, rfl⟩

/-- C1 (amended): when every background persistence write (including the
refund writes) succeeds, each attempt whose debit commits ends in exactly
one of the two outcomes: a Version persisted for the new project with no
refund, or a refund write with no Version — never both, never neither,
whatever the two AI calls do. -/
theorem c1_amended_version_xor_refund (uid p : String) (env : BgEnv)
    (s s' : Store) (r : CreateResult) (u : UserRec)
    (h_run : createUserProject (some uid) (some p) env s = (s', r))
    (h_user : findUser s uid = some u) (h_cred : ¬ u.credits < 5)
    (h_prompt : trimStr p ≠ "") (hWF : StoreWF s)
    (h_faults : env.noWriteFaults) :
    ((versionsFor s' s.nextId ≠ [] ∧ s'.refundWrites = s.refundWrites) ∨
        (versionsFor s' s.nextId = [] ∧ s'.refundWrites = s.refundWrites + 1)) ∧
      ¬ ((versionsFor s' s.nextId ≠ [] ∧ s'.refundWrites = s.refundWrites) ∧
        (versionsFor s' s.nextId = [] ∧ s'.refundWrites = s.refundWrites + 1)) := by
  obtain ⟨f1, f2, f3, f4, f5, f6, f7, f8⟩ := h_faults
  rw [createUserProject_ok uid p env s u h_user h_cred h_prompt] at h_run
  have hs' : s' = runBackground env uid s.nextId p (commitPoint s uid p) :=
    (congrArg Prod.fst h_run).symm
  subst hs'
  refine ⟨?_, ?_⟩
  · cases henh : env.enhanceRes with
    | failure =>
      rw [runBackground_enhance_throw env uid s.nextId p _ henh,
        refundInCatch_ok env uid _ f8]
      right
      refine ⟨?_, rfl⟩
      dsimp only [versionsFor, commitPoint]
      exact old_versions_filter_nil s hWF
    | ok content =>
      rw [runBackground_enhance_ok env uid s.nextId p _ content henh f1 f2]
      cases hgen : env.codeGenRes with
      | failure =>
        rw [handleCodeGen_throw env uid s.nextId _ hgen,
          refundInCatch_ok env uid _ f8]
        right
        refine ⟨?_, rfl⟩
        dsimp only [versionsFor, appendConv, commitPoint]
        exact old_versions_filter_nil s hWF
      | ok content2 =>
        by_cases hcl : cleanCode (content2.getD "") = ""
        · rw [handleCodeGen_empty env uid s.nextId _ content2 hgen hcl f3 f4]
          right
          refine ⟨?_, rfl⟩
          dsimp only [versionsFor, appendConv, commitPoint]
          exact old_versions_filter_nil s hWF
        · rw [handleCodeGen_success env uid s.nextId _ content2 hgen hcl f5 f6 f7]
          left
          refine ⟨?_, rfl⟩
          dsimp only [versionsFor, appendConv, commitPoint]
          rw [List.filter_append, old_versions_filter_nil s hWF]
          simp
  · rintro ⟨⟨h1, _⟩, ⟨h2, _⟩⟩
    exact h1 h2

/-- Witness for the amended C1 at a concrete successful run. -/
theorem c1_amended_version_xor_refund_witness :
    ((versionsFor (createUserProject (some "u") (some "make a site") envAllOk
            exStore).1 0 ≠ [] ∧
        ((createUserProject (some "u") (some "make a site") envAllOk
              exStore).1).refundWrites = 0) ∨
      (versionsFor (createUserProject (some "u") (some "make a site") envAllOk
            exStore).1 0 = [] ∧
        ((createUserProject (some "u") (some "make a site") envAllOk
              exStore).1).refundWrites = 0 + 1)) ∧
      ¬ ((versionsFor (createUserProject (some "u") (some "make a site") envAllOk
              exStore).1 0 ≠ [] ∧
          ((createUserProject (some "u") (some "make a site") envAllOk
                exStore).1).refundWrites = 0) ∧
        (versionsFor (createUserProject (some "u") (some "make a site") envAllOk
              exStore).1 0 = [] ∧
          ((createUserProject (some "u") (some "make a site") envAllOk
                exStore).1).refundWrites = 0 + 1)) :=
  c1_amended_version_xor_refund "u" "make a site" envAllOk exStore _ _ exUser
    rfl rfl (by decide) (by decide) (by decide) (by decide)

/-- C6: over every environment — including environments where one or both
refund writes fail — an attempt whose debit commits performs that debit
write exactly once (never re-attempted) and at most one successful refund
write (never a double refund); refund failures are absorbed and never
change that. -/
theorem c6_refund_containment (env : BgEnv) (auth body : Option String)
    (s : Store) (pid : Nat)
    (h : (createUserProject auth body env s).2 = .ok pid) :
    ((createUserProject auth body env s).1).debitWrites = s.debitWrites + 1 ∧
      s.refundWrites ≤ ((createUserProject auth body env s).1).refundWrites ∧
      ((createUserProject auth body env s).1).refundWrites ≤ s.refundWrites + 1 := by
  rcases auth with _ | uid
  · simp [createUserProject] at h
  rcases body with _ | p
  · simp [createUserProject] at h
  by_cases hp : trimStr p = ""
  · simp [createUserProject, hp] at h
  rcases hu : findUser s uid with _ | u
  · simp [createUserProject, hp, hu] at h
  by_cases hc : u.credits < 5
  · simp [createUserProject, hp, hu, hc] at h
  · rw [createUserProject_ok uid p env s u hu hc hp]
    have hw := runBackground_writes env uid s.nextId p (commitPoint s uid p)
    exact ⟨hw.1.trans (commitPoint_debitWrites s uid p),
      Nat.le_trans (Nat.le_of_eq (commitPoint_refundWrites s uid p).symm) hw.2.1,
      Nat.le_trans hw.2.2 (Nat.le_of_eq (by rw [commitPoint_refundWrites]))⟩

/-- Witness for C6 at a run whose refund write fails. -/
theorem c6_refund_containment_witness :
    ((createUserProject (some "u") (some "make a site") envRefundFail
          exStore).1).debitWrites = exStore.debitWrites + 1 ∧
      exStore.refundWrites ≤
        ((createUserProject (some "u") (some "make a site") envRefundFail
            exStore).1).refundWrites ∧
      ((createUserProject (some "u") (some "make a site") envRefundFail
            exStore).1).refundWrites ≤ exStore.refundWrites + 1 :=
  c6_refund_containment envRefundFail (some "u") (some "make a site") exStore 0 rfl

/-- Fixture: the enhancement call throws. -/
def envEnhThrow : BgEnv := { envAllOk with enhanceRes := AIResult.failure }

/-- Counterexample to C7 as stated: when the enhancement call throws, the
pipeline does NOT fall back and proceed to code generation — it refunds
and terminates: one refund write, only the initial conversation entry
(no start notice), and no Version. -/
theorem c7_counterexample_enhance_throw_refunds :
    ((createUserProject (some "u") (some "make a site") envEnhThrow
          exStore).1).refundWrites = 1 ∧
      convFor (createUserProject (some "u") (some "make a site") envEnhThrow
          exStore).1 0 = [⟨"user", "make a site", 0⟩] ∧
      versionsFor (createUserProject (some "u") (some "make a site") envEnhThrow
          exStore).1 0 = [] :=
  ⟨rfl, rfl, rfl⟩

/-- C7 (amended): an enhancement call that RETURNS with a missing or
whitespace-only content falls back to the original prompt unchanged and
the pipeline proceeds to the code-generation stage; an enhancement call
that THROWS aborts the background task into the catch block's
compensating refund instead. -/
theorem c7_amended_empty_enhance_falls_back (env : BgEnv) (uid : String)
    (pid : Nat) (p : String) (t : Store) :
    (∀ content, env.enhanceRes = .ok content →
      trimStr (content.getD "") = "" →
      env.failConvEnhanced = false → env.failConvGenerating = false →
      enhancedPromptOf content p = p ∧
        runBackground env uid pid p t =
          handleCodeGen env uid pid
            (appendConv (appendConv t pid "assistant"
                ("I've enhanced your prompt to: \"" ++ p ++ "\""))
              pid "assistant" "now generating your website...")) ∧
      (env.enhanceRes = .failure →
        runBackground env uid pid p t = refundInCatch env uid t) := by
  refine ⟨?_, ?_⟩
  · intro content h1 hempty h2 h3
    have hfall : enhancedPromptOf content p = p := by
      cases content with
      | none => rfl
      | some c =>
        have hc : trimStr c = "" := hempty
        simp only [enhancedPromptOf]
        rw [if_pos hc]
    refine ⟨hfall, ?_⟩
    rw [runBackground_enhance_ok env uid pid p t content h1 h2 h3, hfall]
  · intro h
    exact runBackground_enhance_throw env uid pid p t h

/-- Fixture: the enhancement call returns whitespace-only content. -/
def envEnhEmpty : BgEnv :=
  { envAllOk with enhanceRes := AIResult.ok (some "   ") }

/-- Witness for the amended C7 at a concrete whitespace-only enhancement
response. -/
theorem c7_amended_empty_enhance_falls_back_witness :
    enhancedPromptOf (some "   ") "make a site" = "make a site" ∧
      runBackground envEnhEmpty "u" 0 "make a site"
          (commitPoint exStore "u" "make a site") =
        handleCodeGen envEnhEmpty "u" 0
          (appendConv (appendConv (commitPoint exStore "u" "make a site") 0
              "assistant"
              ("I've enhanced your prompt to: \"" ++ "make a site" ++ "\""))
            0 "assistant" "now generating your website...") :=
  (c7_amended_empty_enhance_falls_back envEnhEmpty "u" 0 "make a site"
      (commitPoint exStore "u" "make a site")).1 (some "   ") rfl (by decide)
    rfl rfl

/-- C8: the sanitizer is idempotent — applying it twice equals applying
it once — and it is a no-op on already-clean markup (no triple-backtick
fence, no surrounding whitespace). -/
theorem c8_sanitizer_idempotent_noop :
    (∀ s : String, cleanCode (cleanCode s) = cleanCode s) ∧
      ∀ s : String, ¬ (['`', '`', '`'] <:+: s.toList) →
        (∀ c, s.toList.head? = some c → isJsWs c = false) →
        (∀ c, s.toList.getLast? = some c → isJsWs c = false) →
        cleanCode s = s :=
  ⟨cleanCode_idem, cleanCode_eq_self⟩

/-- Witness for C8 at a fenced input and an already-clean input. -/
theorem c8_sanitizer_idempotent_noop_witness :
    cleanCode (cleanCode "```html\n<p>hi</p>\n```") =
        cleanCode "```html\n<p>hi</p>\n```" ∧
      cleanCode "<p>hi</p>" = "<p>hi</p>" :=
  ⟨c8_sanitizer_idempotent_noop.1 "```html\n<p>hi</p>\n```",
    c8_sanitizer_idempotent_noop.2 "<p>hi</p>" (by decide) (by decide)
      (by decide)⟩

/-- Witness for C2 at a concrete successful run: 10 credits drop to 5,
one Version with the sanitized code, and the project points at it. -/
theorem c2_success_debits_and_persists_witness :
    (createUserProject (some "u") (some "make a site") envAllOk exStore).2 =
        .ok 0 ∧
      creditsOf (createUserProject (some "u") (some "make a site") envAllOk
          exStore).1 "u" = creditsOf exStore "u" - 5 ∧
      versionsFor (createUserProject (some "u") (some "make a site") envAllOk
          exStore).1 0 = [⟨1, "<p>hi</p>", "Initial Version", 0⟩] ∧
      projectById (createUserProject (some "u") (some "make a site") envAllOk
          exStore).1 0 = some
        { id := 0, userId := "u", name := "make a site",
          initial_prompt := "make a site", current_code := some "<p>hi</p>",
          current_version_index := some 1, isPublished := false } :=
  c2_success_debits_and_persists "u" "make a site" envAllOk exStore _ _ exUser
    (some "an enhanced prompt") (some "<p>hi</p>") rfl rfl (by decide)
    (by decide) (by decide) (by decide) rfl rfl (by decide)

/-- Witness for C3 at a concrete empty-output run: balance back to 10, no
Version, the project row and all four entries persisted. -/
theorem c3_empty_output_compensated_witness :
    (createUserProject (some "u") (some "make a site") envEmptyOut exStore).2 =
        .ok 0 ∧
      creditsOf (createUserProject (some "u") (some "make a site") envEmptyOut
          exStore).1 "u" = creditsOf exStore "u" ∧
      versionsFor (createUserProject (some "u") (some "make a site") envEmptyOut
          exStore).1 0 = [] ∧
      projectById (createUserProject (some "u") (some "make a site") envEmptyOut
          exStore).1 0 = some
        { id := 0, userId := "u", name := "make a site",
          initial_prompt := "make a site", current_code := none,
          current_version_index := none, isPublished := false } ∧
      convFor (createUserProject (some "u") (some "make a site") envEmptyOut
          exStore).1 0 =
        [⟨"user", "make a site", 0⟩,
         ⟨"assistant",
           "I've enhanced your prompt to: \"" ++
             enhancedPromptOf (some "an enhanced prompt") "make a site" ++ "\"",
           0⟩,
         ⟨"assistant", "now generating your website...", 0⟩,
         ⟨"assistant", "Unable to create the code. Please try again.", 0⟩] :=
  c3_empty_output_compensated "u" "make a site" envEmptyOut exStore _ _ exUser
    (some "an enhanced prompt") none rfl rfl (by decide) (by decide)
    (by decide) (by decide) rfl rfl (by decide)

/-- Witness for the amended C5: a concrete successful run has exactly 4
conversation entries. -/
theorem c5_amended_four_entries_witness :
    (convFor (createUserProject (some "u") (some "make a site") envAllOk
        exStore).1 0).length = 4 :=
  c5_amended_four_entries "u" "make a site" envAllOk exStore _ _ exUser
    (some "an enhanced prompt") (some "<p>hi</p>") rfl rfl (by decide)
    (by decide) (by decide) (by decide) rfl rfl
